import Mathlib

/-!
Verification of the pak-archive reader (`rust-unreal-unpaker`).

Shallow embedding of the source into Lean: the Rust `Cursor<Vec<u8>>` becomes
an explicit `Cursor` record (backing bytes + position), the byte-reading
extension trait methods (`read_buffer`, `read_fstring`, `read_decompress`)
become pure functions returning `Option` (a `none` models the propagated
`std::io::Error`), and the reader methods of `PakReader` become pure functions
over that state.  Machine integers are modelled as `Nat`/`Int` with explicit
reduction modulo 2^32 / 2^64 at the points where the Rust code can wrap.
The external deflate/gzip codecs are consumed as a capability in the source,
so they enter the model as an oracle parameter
`codec : DecompressType → List Nat → Option (List Nat)`.
A Rust panic (the source has `panic!` calls and slice-range panics via
`Vec::splice`) is a distinct `FetchOutcome.panicked` result, never an error
value.
-/

/-- A byte buffer with a read/seek position: the model of `Cursor<Vec<u8>>`.
Bytes are `Nat` values (concrete inputs use values < 256). -/
structure Cursor where
  data : List Nat
  pos : Nat
  deriving Repr, DecidableEq

/-- Model of `CursorExt::read_buffer` / `read_exact`: returns the next `n`
bytes and the advanced cursor, or `none` (an I/O error) when fewer than `n`
bytes remain. -/
def read_buffer (c : Cursor) (n : Nat) : Option (List Nat × Cursor) :=
  if c.pos + n ≤ c.data.length then
    some ((c.data.drop c.pos).take n, ⟨c.data, c.pos + n⟩)
  else
    none

/-- Little-endian value of a byte list (first byte least significant). -/
def leVal : List Nat → Nat
  | [] => 0
  | b :: bs => b + 256 * leVal bs

/-- Reinterpret an unsigned `w`-bit value as signed (two's complement). -/
def toSigned (w : Nat) (n : Nat) : Int :=
  if n < 2 ^ (w - 1) then (n : Int) else (n : Int) - 2 ^ w

/-- Model of `read_u8`. -/
def readU8 (c : Cursor) : Option (Nat × Cursor) :=
  match read_buffer c 1 with
  | none => none
  | some (bs, c') => some (leVal bs, c')

/-- Model of `read_u16::<LittleEndian>`. -/
def readU16LE (c : Cursor) : Option (Nat × Cursor) :=
  match read_buffer c 2 with
  | none => none
  | some (bs, c') => some (leVal bs, c')

/-- Model of `read_u32::<LittleEndian>`. -/
def readU32LE (c : Cursor) : Option (Nat × Cursor) :=
  match read_buffer c 4 with
  | none => none
  | some (bs, c') => some (leVal bs, c')

/-- Model of `read_u64::<LittleEndian>`. -/
def readU64LE (c : Cursor) : Option (Nat × Cursor) :=
  match read_buffer c 8 with
  | none => none
  | some (bs, c') => some (leVal bs, c')

/-- Model of `read_i32::<LittleEndian>`. -/
def readI32LE (c : Cursor) : Option (Int × Cursor) :=
  match read_buffer c 4 with
  | none => none
  | some (bs, c') => some (toSigned 32 (leVal bs), c')

/-- Model of `read_i64::<LittleEndian>`. -/
def readI64LE (c : Cursor) : Option (Int × Cursor) :=
  match read_buffer c 8 with
  | none => none
  | some (bs, c') => some (toSigned 64 (leVal bs), c')

/-- The two codecs of `cursor_ext::DecompressType`. -/
inductive DecompressType where
  | Zlib
  | GZip
  deriving Repr, DecidableEq

/-- The codec capability: what `zlib::Decoder` / `flate::Decoder` +
`read_to_end` provide.  `none` models a decoder error; `some out` models a
successful decode producing `out` (so the returned `bytes_read` count is
`out.length`). -/
def Codec : Type := DecompressType → List Nat → Option (List Nat)

/-- Model of `CursorExt::read_decompress`: read `size` bytes from the cursor,
feed them to the selected decoder, return `(bytes_read, decompressed)` with
the advanced cursor. -/
def read_decompress (codec : Codec) (c : Cursor) (size : Nat)
    (t : DecompressType) : Option ((Nat × List Nat) × Cursor) :=
  match read_buffer c size with
  | none => none
  | some (buf, c') =>
    match codec t buf with
    | none => none
    | some out => some ((out.length, out), c')

/-- One compression block record (`PakCompressionBlock`): signed 64-bit
start/end markers. -/
structure PakCompressionBlock where
  compression_start : Int
  compression_end : Int
  deriving Repr, DecidableEq

/-- One directory entry (`PakEntry`). -/
structure PakEntry where
  start : Nat
  offset : Nat
  size : Nat
  flags : Nat
  timestamp : Nat
  hash : List Nat
  uncompressed_size : Nat
  compression_index : Nat
  compression_block_size : Nat
  compression_blocks : List PakCompressionBlock
  header_size : Nat
  deriving Repr, DecidableEq

/-- Result of a `get_pak_entry_data` call.  `ioError` models a propagated
`PakReaderError::ReadError`; `panicked` models a Rust panic (either the
`panic!` on an unimplemented compression index or a `Vec::splice` range
panic), which is not an error value. -/
inductive FetchOutcome where
  | ok (data : List Nat)
  | ioError
  | panicked
  deriving Repr, DecidableEq

/-- u64 wrapping subtraction `a - b` (release-mode Rust semantics). -/
def sub64 (a b : Nat) : Nat :=
  (a % 2 ^ 64 + 2 ^ 64 - b % 2 ^ 64) % 2 ^ 64

/-- The `as usize` cast of an i64 value (wraps modulo 2^64). -/
def i64ToUsize (i : Int) : Nat :=
  (i % (2 ^ 64 : Int)).toNat

/-- `PakCompressionBlock::get_size` followed by the `as usize` cast at the
call site: `compression_end - compression_start` with i64/usize wrapping. -/
def blockSizeUsize (b : PakCompressionBlock) : Nat :=
  i64ToUsize (b.compression_end - b.compression_start)

/-- The `match entry.compression_index` at the decompression site:
`1 => Zlib, 2 => GZip, _ => panic!`.  `none` means the panic arm. -/
def decompressTypeOf : Nat → Option DecompressType
  | 1 => some DecompressType.Zlib
  | 2 => some DecompressType.GZip
  | _ => none

/-- The body of the block loop in `PakReader::get_pak_entry_data`, one
recursive step per `CompressionBlock`.  State: remaining blocks, the running
block index, the running output offset, the output buffer `dec`, and the
archive cursor.  Mirrors the source order: the per-block chunk of
`uncompressed_block_size` bytes is read from the archive first, then the
compression index is dispatched (panicking on an unimplemented index), then
`read_decompress` runs over that chunk, then
`decompressed.splice(offset..bytes_read, ..)` is applied — with its Rust
range-panic condition (`offset ≤ bytes_read ≤ len` required). -/
def fetchBlocks (codec : Codec) (e : PakEntry) :
    List PakCompressionBlock → Nat → Nat → List Nat → Cursor → FetchOutcome
  | [], _, _, dec, _ => FetchOutcome.ok dec
  | blk :: rest, idx, off, dec, c =>
    let ubs := min (sub64 e.uncompressed_size (e.compression_block_size * idx))
      e.compression_block_size
    match read_buffer c ubs with
    | none => FetchOutcome.ioError
    | some (cbuf, c') =>
      let cs := blockSizeUsize blk
      match decompressTypeOf e.compression_index with
      | none => FetchOutcome.panicked
      | some t =>
        match read_decompress codec ⟨cbuf, 0⟩ cs t with
        | none => FetchOutcome.ioError
        | some ((br, out), _) =>
          if off ≤ br ∧ br ≤ dec.length then
            fetchBlocks codec e rest (idx + 1) (off + br)
              (dec.take off ++ out ++ dec.drop br) c'
          else FetchOutcome.panicked

/-- Model of `PakReader::get_pak_entry_data`: reposition the cursor to
`offset + header_size`; a stored entry (index 0) returns `size` raw bytes;
otherwise the output buffer is zero-initialised at `uncompressed_size` bytes
and the block loop runs. -/
def get_pak_entry_data (codec : Codec) (c : Cursor) (e : PakEntry) :
    FetchOutcome :=
  let c1 : Cursor := ⟨c.data, e.offset + e.header_size⟩
  if e.compression_index = 0 then
    match read_buffer c1 e.size with
    | some (buf, _) => FetchOutcome.ok buf
    | none => FetchOutcome.ioError
  else
    fetchBlocks codec e e.compression_blocks 0 0
      (List.replicate e.uncompressed_size 0) c1

theorem read_buffer_of_le {c : Cursor} {n : Nat}
    (h : c.pos + n ≤ c.data.length) :
    read_buffer c n = some ((c.data.drop c.pos).take n, ⟨c.data, c.pos + n⟩) := by
  simp [read_buffer, h]

/-- C8: for a stored entry (compression index 0) whose byte range fits the
backing buffer, the fetch returns exactly the `size` bytes of the archive
starting at `offset + header_size`, untransformed. -/
theorem stored_entry_roundtrip (codec : Codec) (c : Cursor) (e : PakEntry)
    (h0 : e.compression_index = 0)
    (hfit : e.offset + e.header_size + e.size ≤ c.data.length) :
    get_pak_entry_data codec c e =
      FetchOutcome.ok ((c.data.drop (e.offset + e.header_size)).take e.size) := by
  have : read_buffer ⟨c.data, e.offset + e.header_size⟩ e.size =
      some ((c.data.drop (e.offset + e.header_size)).take e.size,
        ⟨c.data, e.offset + e.header_size + e.size⟩) :=
    read_buffer_of_le (by simpa using hfit)
  simp [get_pak_entry_data, h0, this]

/-- C8 witness: a concrete stored entry fetch. -/
theorem stored_entry_roundtrip_witness :
    get_pak_entry_data (fun _ _ => none) ⟨[9, 8, 7, 6, 5], 3⟩
      { start := 0, offset := 1, size := 2, flags := 0, timestamp := 0,
        hash := [], uncompressed_size := 2, compression_index := 0,
        compression_block_size := 0, compression_blocks := [],
        header_size := 1 } = FetchOutcome.ok [7, 6] := by
  have := stored_entry_roundtrip (fun _ _ => none) ⟨[9, 8, 7, 6, 5], 3⟩
    { start := 0, offset := 1, size := 2, flags := 0, timestamp := 0,
      hash := [], uncompressed_size := 2, compression_index := 0,
      compression_block_size := 0, compression_blocks := [],
      header_size := 1 } (by decide) (by decide)
  simpa using this

/-- C9: a compressed-marked entry (index ≠ 0) with an empty compression-block
list fetches successfully as `uncompressed_size` zero bytes, for every
backing buffer and every codec — no payload byte is read and no codec is
invoked. -/
theorem empty_blocks_zero_buffer (codec : Codec) (c : Cursor) (e : PakEntry)
    (hnz : e.compression_index ≠ 0)
    (hblocks : e.compression_blocks = []) :
    get_pak_entry_data codec c e =
      FetchOutcome.ok (List.replicate e.uncompressed_size 0) := by
  simp [get_pak_entry_data, hnz, hblocks, fetchBlocks]

/-- C9 witness: a concrete compressed entry with no blocks. -/
theorem empty_blocks_zero_buffer_witness :
    get_pak_entry_data (fun _ _ => none) ⟨[1, 2, 3], 0⟩
      { start := 0, offset := 0, size := 5, flags := 0, timestamp := 0,
        hash := [], uncompressed_size := 3, compression_index := 1,
        compression_block_size := 0, compression_blocks := [],
        header_size := 0 } = FetchOutcome.ok [0, 0, 0] := by
  have := empty_blocks_zero_buffer (fun _ _ => none) ⟨[1, 2, 3], 0⟩
    { start := 0, offset := 0, size := 5, flags := 0, timestamp := 0,
      hash := [], uncompressed_size := 3, compression_index := 1,
      compression_block_size := 0, compression_blocks := [],
      header_size := 0 } (by decide) (by decide)
  simpa using this

/-- C10: the result of `get_pak_entry_data` does not depend on the shared
cursor's position at call time — the fetch unconditionally repositions to
`offset + header_size` first, so two fetches of the same entry over the same
backing bytes agree for any two starting positions. -/
theorem fetch_independent_of_position (codec : Codec) (data : List Nat)
    (p₁ p₂ : Nat) (e : PakEntry) :
    get_pak_entry_data codec ⟨data, p₁⟩ e =
      get_pak_entry_data codec ⟨data, p₂⟩ e := by
  simp [get_pak_entry_data]

/-- i32 wrapping of an integer (release-mode Rust `-len` wraps; in particular
the negation of the minimal i32 value is itself). -/
def wrapI32 (i : Int) : Int :=
  (i + 2 ^ 31) % 2 ^ 32 - 2 ^ 31

/-- Per-unit narrowing of `read_fstring`'s wide branch: a two-byte code unit
with a non-zero high byte becomes the sentinel byte 36 (the character
`Dollar`); otherwise the low byte is kept. -/
def charOfUnit (u : Nat) : Nat :=
  if u < 256 then u else 36

/-- The wide-branch loop of `read_fstring`: read `n` two-byte little-endian
code units, narrowing each with `charOfUnit`, accumulating in order. -/
def readUnits : Cursor → Nat → List Nat → Option (List Nat × Cursor)
  | c, 0, acc => some (acc, c)
  | c, n + 1, acc =>
    match readU16LE c with
    | none => none
    | some (u, c') => readUnits c' n (acc ++ [charOfUnit u])

/-- Model of `CursorExt::read_fstring`: a signed 32-bit length `L`; when
`0 < L`, `L - 1` single-byte characters followed by one discarded terminator
byte; otherwise `-L` (computed with i32 wrapping, so i32-minimum yields a
negative count and hence zero iterations) two-byte code units, each narrowed
by `charOfUnit`.  The decoded string is kept as its list of character
codes. -/
def read_fstring (c : Cursor) : Option (List Nat × Cursor) :=
  match readI32LE c with
  | none => none
  | some (len, c1) =>
    if 0 < len then
      match read_buffer c1 (len.toNat - 1) with
      | none => none
      | some (chars, c2) =>
        match read_buffer c2 1 with
        | none => none
        | some (_, c3) => some (chars, c3)
    else
      readUnits c1 (wrapI32 (-len)).toNat []

/-- The expected output of the wide branch over a byte list: one narrowed
character per two-byte little-endian unit. -/
def unitChars : List Nat → Nat → List Nat
  | _, 0 => []
  | bs, n + 1 => charOfUnit (leVal (bs.take 2)) :: unitChars (bs.drop 2) n

theorem readU16LE_of_le {data : List Nat} {p : Nat}
    (h : p + 2 ≤ data.length) :
    readU16LE ⟨data, p⟩ =
      some (leVal ((data.drop p).take 2), ⟨data, p + 2⟩) := by
  simp [readU16LE, read_buffer_of_le (c := ⟨data, p⟩) h]

theorem readUnits_eq (data : List Nat) :
    ∀ (n : Nat) (p : Nat) (acc : List Nat), p + 2 * n ≤ data.length →
      readUnits ⟨data, p⟩ n acc =
        some (acc ++ unitChars (data.drop p) n, ⟨data, p + 2 * n⟩) := by
  intro n
  induction n with
  | zero => intro p acc _; simp [readUnits, unitChars]
  | succ n ih =>
    intro p acc h
    have h2 : p + 2 ≤ data.length := by omega
    have hrest : (p + 2) + 2 * n ≤ data.length := by omega
    have ihh := ih (p + 2) (acc ++ [charOfUnit (leVal ((data.drop p).take 2))])
      hrest
    rw [readUnits, readU16LE_of_le h2]
    dsimp only
    rw [ihh]
    have hdrop : data.drop (p + 2) = (data.drop p).drop 2 := by
      rw [List.drop_drop]
    simp only [unitChars, hdrop, List.append_assoc, List.singleton_append,
      Option.some.injEq, Prod.mk.injEq, Cursor.mk.injEq, true_and]
    omega

/-- C6 (amended): behaviour of the string decoder given the signed 32-bit
length `L` at the cursor.  If `0 < L`: the next `L - 1` bytes are the
characters and exactly one further byte is consumed without being appended.
If `L ≤ 0` and `L` is not the minimal i32 value: `N = -L` two-byte
little-endian code units are read and narrowed one character per unit
(`charOfUnit`: high byte non-zero collapses to the sentinel byte 36,
otherwise the low byte).  The i32-minimum length is excluded: there Rust's
`-len` wraps back to a negative count and the decoder reads zero units. -/
theorem read_fstring_spec (data : List Nat) (p : Nat) (L : Int)
    (hL : toSigned 32 (leVal ((data.drop p).take 4)) = L)
    (h4 : p + 4 ≤ data.length) :
    (0 < L → p + 4 + L.toNat ≤ data.length →
      read_fstring ⟨data, p⟩ =
        some (((data.drop (p + 4)).take (L.toNat - 1)), ⟨data, p + 4 + L.toNat⟩))
    ∧ (L ≤ 0 → -(2 ^ 31) < L → p + 4 + 2 * (-L).toNat ≤ data.length →
      read_fstring ⟨data, p⟩ =
        some (unitChars (data.drop (p + 4)) (-L).toNat,
          ⟨data, p + 4 + 2 * (-L).toNat⟩)) := by
  have hread : readI32LE ⟨data, p⟩ = some (L, ⟨data, p + 4⟩) := by
    simp [readI32LE, read_buffer_of_le (c := ⟨data, p⟩) h4, hL]
  constructor
  · intro hpos hfit
    have h1 : 1 ≤ L.toNat := by omega
    have ha : (p + 4) + (L.toNat - 1) ≤ data.length := by omega
    have hb : ((p + 4) + (L.toNat - 1)) + 1 ≤ data.length := by omega
    rw [read_fstring, hread]
    dsimp only
    rw [if_pos hpos, read_buffer_of_le (c := ⟨data, p + 4⟩) ha]
    dsimp only
    rw [read_buffer_of_le (c := ⟨data, (p + 4) + (L.toNat - 1)⟩) hb]
    dsimp only
    simp only [Option.some.injEq, Prod.mk.injEq, Cursor.mk.injEq, true_and]
    omega
  · intro hnonpos hmin hfit
    have hnpos : ¬ 0 < L := by omega
    have hwrap : wrapI32 (-L) = -L := by
      have hlt : -L < 2 ^ 31 := by omega
      have hge : (0 : Int) ≤ -L := by omega
      unfold wrapI32
      rw [Int.emod_eq_of_lt (by omega) (by norm_num; omega)]
      ring
    rw [read_fstring, hread]
    dsimp only
    rw [if_neg hnpos, hwrap, readUnits_eq data (-L).toNat (p + 4) [] hfit]
    simp

/-- C6 witness: decode the spec's ASCII example — length 5 then bytes
`t,e,s,t,0` yields the four characters `t,e,s,t` with the terminator
consumed; and a wide example — length `-3` with units `0x41, 0x142, 0x43`
yields `A$C` (the middle unit collapses to the sentinel 36). -/
theorem read_fstring_spec_witness :
    read_fstring ⟨[5, 0, 0, 0, 116, 101, 115, 116, 0], 0⟩ =
      some ([116, 101, 115, 116], ⟨[5, 0, 0, 0, 116, 101, 115, 116, 0], 9⟩)
    ∧ read_fstring ⟨[253, 255, 255, 255, 65, 0, 66, 1, 67, 0], 0⟩ =
      some ([65, 36, 67], ⟨[253, 255, 255, 255, 65, 0, 66, 1, 67, 0], 10⟩) := by
  constructor
  · have := (read_fstring_spec [5, 0, 0, 0, 116, 101, 115, 116, 0] 0 5
      (by decide) (by decide)).1 (by decide) (by decide)
    simpa using this
  · have := (read_fstring_spec [253, 255, 255, 255, 65, 0, 66, 1, 67, 0] 0 (-3)
      (by decide) (by decide)).2 (by decide) (by decide) (by decide)
    simpa using this

/-- C6 counterexample: at the i32-minimum length `L = -2^31` the claim
predicts `N = 2^31` code units must be read (impossible on this 4-byte
input, so the call would fail), but the code's `-len` wraps and the decoder
returns the empty string successfully, consuming only the length field. -/
theorem read_fstring_i32_min_counterexample :
    toSigned 32 (leVal [0, 0, 0, 128]) = -(2 ^ 31)
    ∧ read_fstring ⟨[0, 0, 0, 128], 0⟩ =
        some ([], ⟨[0, 0, 0, 128], 4⟩)
    ∧ ([] : List Nat).length ≠ (-(-(2 ^ 31) : Int)).toNat := by
  refine ⟨by decide, ?_, by decide⟩
  decide


/-- The parent-escape sequence stripped from the mount point
(`"../../../"`, as character codes). -/
def escapeSeq : List Nat := [46, 46, 47, 46, 46, 47, 46, 46, 47]

/-- Model of `mount_point.replace("../../../", "")` in
`PakReader::get_pak_entries`: Rust `str::replace` scans the original string
left to right, removing each non-overlapping occurrence and continuing after
its end; already-produced output is never rescanned. -/
def replaceEscape : List Nat → List Nat
  | 46 :: 46 :: 47 :: 46 :: 46 :: 47 :: 46 :: 46 :: 47 :: rest =>
    replaceEscape rest
  | x :: xs => x :: replaceEscape xs
  | [] => []

/-- Whether `pat` occurs as a contiguous block at the head of `s`. -/
def leadsWith : List Nat → List Nat → Bool
  | [], _ => true
  | _ :: _, [] => false
  | p :: ps, x :: xs => p == x && leadsWith ps xs

/-- Whether `pat` occurs as a contiguous block anywhere in `s`. -/
def containsSeq (pat : List Nat) : List Nat → Bool
  | [] => leadsWith pat []
  | x :: xs => leadsWith pat (x :: xs) || containsSeq pat xs

theorem containsSeq_cons_eq_false {pat : List Nat} {x : Nat} {xs : List Nat}
    (h : containsSeq pat (x :: xs) = false) :
    leadsWith pat (x :: xs) = false ∧ containsSeq pat xs = false := by
  rw [containsSeq, Bool.or_eq_false_iff] at h
  exact h

theorem replaceEscape_of_no_occurrence :
    ∀ s : List Nat, containsSeq escapeSeq s = false → replaceEscape s = s := by
  intro s
  induction s using replaceEscape.induct with
  | case1 rest ih =>
    intro h
    exfalso
    have hlw := (containsSeq_cons_eq_false h).1
    simp [leadsWith, escapeSeq] at hlw
  | case2 x xs hne ih =>
    intro h
    rw [replaceEscape.eq_2 x xs hne, ih (containsSeq_cons_eq_false h).2]
  | case3 =>
    intro _
    rfl

/-- The character codes of `"Game/Content/"`. -/
def gameContent : List Nat :=
  [71, 97, 109, 101, 47, 67, 111, 110, 116, 101, 110, 116, 47]

/-- C5 (amended): the sanitizer removes every occurrence of the
parent-escape sequence found in one left-to-right scan of the decoded mount
point — an input free of the sequence is returned unchanged, and the spec's
example `"../../../Game/Content/"` decodes to `"Game/Content/"` — but the
scan never revisits produced output, so stripping can juxtapose surrounding
characters into a new occurrence. -/
theorem mount_point_sanitizer_single_pass :
    (∀ s : List Nat, containsSeq escapeSeq s = false → replaceEscape s = s)
    ∧ replaceEscape (escapeSeq ++ gameContent) = gameContent := by
  refine ⟨replaceEscape_of_no_occurrence, ?_⟩
  decide

/-- C5 witness: a concrete escape-free string passes through unchanged. -/
theorem mount_point_sanitizer_single_pass_witness :
    replaceEscape [47, 46, 46, 47] = [47, 46, 46, 47] :=
  mount_point_sanitizer_single_pass.1 [47, 46, 46, 47] (by decide)

/-- C5 counterexample: for the mount point `"../../..[../../../]/"` the single
left-to-right pass removes only the bracketed occurrence, and the characters
around the removal join into a fresh `"../../../"` — the sanitized output
still contains the parent-escape sequence. -/
theorem mount_point_sanitizer_counterexample :
    containsSeq escapeSeq
      (replaceEscape
        ([46, 46, 47, 46, 46, 47, 46, 46] ++ escapeSeq ++ [47])) = true
    ∧ replaceEscape ([46, 46, 47, 46, 46, 47, 46, 46] ++ escapeSeq ++ [47]) =
        escapeSeq := by
  constructor
  · decide
  · decide

theorem readU8_of_le {data : List Nat} {p : Nat} (h : p + 1 ≤ data.length) :
    readU8 ⟨data, p⟩ = some (leVal ((data.drop p).take 1), ⟨data, p + 1⟩) := by
  simp [readU8, read_buffer_of_le (c := ⟨data, p⟩) h]

theorem readU32LE_of_le {data : List Nat} {p : Nat} (h : p + 4 ≤ data.length) :
    readU32LE ⟨data, p⟩ = some (leVal ((data.drop p).take 4), ⟨data, p + 4⟩) := by
  simp [readU32LE, read_buffer_of_le (c := ⟨data, p⟩) h]

theorem readU64LE_of_le {data : List Nat} {p : Nat} (h : p + 8 ≤ data.length) :
    readU64LE ⟨data, p⟩ = some (leVal ((data.drop p).take 8), ⟨data, p + 8⟩) := by
  simp [readU64LE, read_buffer_of_le (c := ⟨data, p⟩) h]

theorem readI32LE_of_le {data : List Nat} {p : Nat} (h : p + 4 ≤ data.length) :
    readI32LE ⟨data, p⟩ =
      some (toSigned 32 (leVal ((data.drop p).take 4)), ⟨data, p + 4⟩) := by
  simp [readI32LE, read_buffer_of_le (c := ⟨data, p⟩) h]

theorem readI64LE_of_le {data : List Nat} {p : Nat} (h : p + 8 ≤ data.length) :
    readI64LE ⟨data, p⟩ =
      some (toSigned 64 (leVal ((data.drop p).take 8)), ⟨data, p + 8⟩) := by
  simp [readI64LE, read_buffer_of_le (c := ⟨data, p⟩) h]

/-- The pak magic constant. -/
def PAK_MAGIC : Nat := 0x5A6F12E1

/-- `PakVersionSizes::Size`: guid + encrypted flag + magic + version +
index offset + index size + index hash. -/
def pakSize : Nat := 4 * 2 + 8 * 2 + 20 + 1 + 16

/-- `PakVersionSizes::SizeV8`: four 32-byte method-name slots more. -/
def pakSizeV8 : Nat := pakSize + 32 * 4

/-- `PakVersionSizes::SizeV8A`: a fifth 32-byte method-name slot more. -/
def pakSizeV8A : Nat := pakSizeV8 + 32

/-- `PakVersionSizes::SizeV9`: one frozen-flag byte more. -/
def pakSizeV9 : Nat := pakSizeV8A + 1

/-- `PakVersionSizes::get_sizes`: the candidate trailer sizes, in the order
the prober tries them. -/
def pakVersionSizes : List Nat := [pakSize, pakSizeV8, pakSizeV8A, pakSizeV9]

/-- The variants of `PakReaderError`. -/
inductive PakReaderError where
  | readError
  | readHeaderError
  | magicMismatch
  | unknownVersion
  | encryptionNotSupported
  deriving Repr, DecidableEq

/-- The decoded footer metadata (`PakInfo`).  Method names are kept as lists
of character codes. -/
structure PakInfo where
  encryption_index_guid : List Nat
  is_encrypted : Bool
  magic : Nat
  version : Int
  sub_version : Int
  index_offset : Int
  index_size : Int
  index_hash : List Nat
  index_frozen : Nat
  compression_methods : List (List Nat)
  deriving Repr, DecidableEq

/-- The compression-method-name loop of `read_pak_info` (version ≥ 8 case):
walk the remaining trailer bytes, accumulating non-NUL bytes and emitting the
accumulated run at each NUL; a run not terminated by a NUL is dropped. -/
def parseTokens : List Nat → List Nat → List (List Nat)
  | [], _ => []
  | b :: rest, buf =>
    if b = 0 then
      if buf = [] then parseTokens rest [] else buf :: parseTokens rest []
    else
      parseTokens rest (buf ++ [b])

/-- The fixed pre-version-8 compression method list
(`["Zlib", "Gzip", "Oodle"]` as character codes). -/
def defaultCompressionMethods : List (List Nat) :=
  [[90, 108, 105, 98], [71, 122, 105, 112], [79, 111, 100, 108, 101]]

/-- The body of `PakReader::read_pak_info` after the trailer bytes have been
isolated: parse guid, encrypted flag, magic (candidate rejected on
mismatch), version, index offset/size, hash; compute the sub-version; apply
the version gates to the encrypted flag and guid; read the frozen byte for
version ≥ 9; collect method names; finally refuse an encrypted archive. -/
def parsePakFooter (t : List Nat) (version_size : Nat) :
    Except PakReaderError PakInfo :=
  match read_buffer ⟨t, 0⟩ 16 with
  | none => Except.error PakReaderError.readError
  | some (guid, c) =>
  match readU8 c with
  | none => Except.error PakReaderError.readError
  | some (encByte, c) =>
  match readU32LE c with
  | none => Except.error PakReaderError.readError
  | some (magic, c) =>
  if magic ≠ PAK_MAGIC then Except.error PakReaderError.magicMismatch else
  match readI32LE c with
  | none => Except.error PakReaderError.readError
  | some (version, c) =>
  match readI64LE c with
  | none => Except.error PakReaderError.readError
  | some (index_offset, c) =>
  match readI64LE c with
  | none => Except.error PakReaderError.readError
  | some (index_size, c) =>
  match read_buffer c 20 with
  | none => Except.error PakReaderError.readError
  | some (index_hash, c) =>
  let sub_version : Int :=
    if version_size = pakSizeV8A ∧ version = 8 then 1 else 0
  let is_encrypted : Bool :=
    if version < 4 then false else decide (0 < encByte)
  let guid := if version < 7 then [] else guid
  match (if 9 ≤ version then readU8 c else some (0, c)) with
  | none => Except.error PakReaderError.readError
  | some (index_frozen, c) =>
  let compression :=
    if version < 8 then defaultCompressionMethods
    else parseTokens (t.drop c.pos) []
  if is_encrypted then Except.error PakReaderError.encryptionNotSupported
  else Except.ok
    { encryption_index_guid := guid, is_encrypted, magic, version,
      sub_version, index_offset, index_size, index_hash, index_frozen,
      compression_methods := compression }

/-- Model of `PakReader::read_pak_info`: seek to `End(-version_size)` (an
I/O error when the buffer is shorter than the candidate), read the candidate
trailer, then parse it. -/
def read_pak_info (buf : List Nat) (version_size : Nat) :
    Except PakReaderError PakInfo :=
  if version_size ≤ buf.length then
    parsePakFooter (buf.drop (buf.length - version_size)) version_size
  else
    Except.error PakReaderError.readError

/-- The candidate loop of `PakReader::get_pak_info`: first success wins;
every candidate error is discarded. -/
def tryPakSizes (buf : List Nat) : List Nat → Except PakReaderError PakInfo
  | [] => Except.error PakReaderError.unknownVersion
  | s :: rest =>
    match read_pak_info buf s with
    | Except.ok info => Except.ok info
    | Except.error _ => tryPakSizes buf rest

/-- Model of `PakReader::get_pak_info`. -/
def get_pak_info (buf : List Nat) : Except PakReaderError PakInfo :=
  tryPakSizes buf pakVersionSizes

theorem tryPakSizes_error_iff (buf : List Nat) :
    ∀ l : List Nat, (tryPakSizes buf l = Except.error PakReaderError.unknownVersion
      ↔ ∀ s ∈ l, ∃ er, read_pak_info buf s = Except.error er) := by
  intro l
  induction l with
  | nil => simp [tryPakSizes]
  | cons s rest ih =>
    constructor
    · intro h
      rw [tryPakSizes] at h
      intro s' hs'
      rcases List.mem_cons.mp hs' with heq | hmem
      · subst heq
        cases hr : read_pak_info buf s' with
        | ok info => rw [hr] at h; exact absurd h (by simp)
        | error er => exact ⟨er, rfl⟩
      · cases hr : read_pak_info buf s with
        | ok info => rw [hr] at h; exact absurd h (by simp)
        | error er =>
          rw [hr] at h
          exact (ih.mp h) s' hmem
    · intro h
      rw [tryPakSizes]
      obtain ⟨er, her⟩ := h s (List.mem_cons_self s rest)
      rw [her]
      exact ih.mpr (fun s' hs' => h s' (List.mem_cons_of_mem s hs'))

theorem tryPakSizes_ok (buf : List Nat) :
    ∀ (l : List Nat) (info : PakInfo), tryPakSizes buf l = Except.ok info →
      ∃ pre s post, l = pre ++ s :: post
        ∧ read_pak_info buf s = Except.ok info
        ∧ ∀ s' ∈ pre, ∃ er, read_pak_info buf s' = Except.error er := by
  intro l
  induction l with
  | nil => intro info h; exact absurd h (by simp [tryPakSizes])
  | cons s rest ih =>
    intro info h
    rw [tryPakSizes] at h
    cases hr : read_pak_info buf s with
    | ok info' =>
      rw [hr] at h
      refine ⟨[], s, rest, by simp, ?_, by simp⟩
      rw [hr]
      simpa using h
    | error er =>
      rw [hr] at h
      obtain ⟨pre, s', post, hl, hok, hpre⟩ := ih info h
      refine ⟨s :: pre, s', post, by rw [hl]; rfl, hok, ?_⟩
      intro s'' hs''
      rcases List.mem_cons.mp hs'' with heq | hmem
      · subst heq; exact ⟨er, hr⟩
      · exact hpre s'' hmem

/-- C7: the version prober tries the candidate trailer sizes in strictly
ascending order — base, base + 128, then + 32 more, then + 1 more — returns
the metadata of the first candidate whose footer parse succeeds, and returns
`UnknownVersion` exactly when every candidate fails. -/
theorem version_prober_first_success :
    pakVersionSizes = [pakSize, pakSize + 128, pakSize + 128 + 32,
      pakSize + 128 + 32 + 1]
    ∧ pakSize < pakSizeV8 ∧ pakSizeV8 < pakSizeV8A ∧ pakSizeV8A < pakSizeV9
    ∧ (∀ buf, get_pak_info buf = Except.error PakReaderError.unknownVersion ↔
        ∀ s ∈ pakVersionSizes, ∃ er, read_pak_info buf s = Except.error er)
    ∧ (∀ buf info, get_pak_info buf = Except.ok info →
        ∃ pre s post, pakVersionSizes = pre ++ s :: post
          ∧ read_pak_info buf s = Except.ok info
          ∧ ∀ s' ∈ pre, ∃ er, read_pak_info buf s' = Except.error er) := by
  refine ⟨by decide, by decide, by decide, by decide, fun buf => ?_,
    fun buf info h => ?_⟩
  · exact tryPakSizes_error_iff buf pakVersionSizes
  · exact tryPakSizes_ok buf pakVersionSizes info h

/-- C7 witness: on the empty buffer every candidate fails its seek, so the
prober reports `UnknownVersion`. -/
theorem version_prober_first_success_witness :
    get_pak_info [] = Except.error PakReaderError.unknownVersion := by
  refine (version_prober_first_success.2.2.2.2.1 []).mpr ?_
  intro s hs
  fin_cases hs <;> exact ⟨PakReaderError.readError, rfl⟩

/-- C1 (amended): for any candidate trailer whose parse reaches the
encryption check with the encrypted flag still set after version gating —
magic matches, version ≥ 4 (so the gate does not clear the flag), the
encrypted byte is non-zero, and the trailer is large enough for every field
read on the way (61 bytes, plus the frozen byte when version ≥ 9) —
`read_pak_info` fails with `EncryptionNotSupported` and returns no data.
The prober `get_pak_info`, however, discards per-candidate errors, so the
archive-level open reports `UnknownVersion` when every candidate fails
(see the counterexample). -/
theorem encrypted_trailer_fails (buf t : List Nat) (size : Nat) (v : Int)
    (ht : t = buf.drop (buf.length - size))
    (h61 : 61 ≤ size) (hle : size ≤ buf.length)
    (hmag : leVal ((t.drop 17).take 4) = PAK_MAGIC)
    (hv4 : v = toSigned 32 (leVal ((t.drop 21).take 4)))
    (hv : 4 ≤ v)
    (henc : 0 < leVal ((t.drop 16).take 1))
    (hfz : 9 ≤ v → 62 ≤ size) :
    read_pak_info buf size =
      Except.error PakReaderError.encryptionNotSupported := by
  have htlen : t.length = size := by
    rw [ht, List.length_drop]
    omega
  rw [read_pak_info, if_pos hle, ← ht]
  rw [parsePakFooter]
  rw [read_buffer_of_le (c := ⟨t, 0⟩) (by simpa [htlen] using by omega : (⟨t, 0⟩ : Cursor).pos + 16 ≤ (⟨t, 0⟩ : Cursor).data.length)]
  dsimp only
  rw [readU8_of_le (by omega : (16 : Nat) + 1 ≤ t.length)]
  dsimp only
  rw [readU32LE_of_le (by omega : (17 : Nat) + 4 ≤ t.length)]
  dsimp only
  rw [List.drop_zero, hmag, if_neg (by simp)]
  rw [readI32LE_of_le (by omega : (21 : Nat) + 4 ≤ t.length)]
  dsimp only
  rw [readI64LE_of_le (by omega : (25 : Nat) + 8 ≤ t.length)]
  dsimp only
  rw [readI64LE_of_le (by omega : (33 : Nat) + 8 ≤ t.length)]
  dsimp only
  rw [read_buffer_of_le (c := ⟨t, 41⟩) (by simpa using by omega : (⟨t, 41⟩ : Cursor).pos + 20 ≤ (⟨t, 41⟩ : Cursor).data.length)]
  dsimp only
  rw [← hv4]
  have hv4' : ¬ v < 4 := by omega
  have hencB : (if v < 4 then false else decide (0 < leVal ((t.drop 16).take 1))) = true := by
    rw [if_neg hv4']
    simpa using henc
  by_cases h9 : 9 ≤ v
  · rw [if_pos h9, readU8_of_le (by have := hfz h9; omega : (61 : Nat) + 1 ≤ t.length)]
    dsimp only
    rw [hencB]
    rfl
  · rw [if_neg h9]
    dsimp only
    rw [hencB]
    rfl

/-- A concrete 61-byte archive: zero guid, encrypted flag set, matching
magic, version 4, zero index offset/size/hash. -/
def encPakBuf : List Nat :=
  List.replicate 16 0 ++ [1] ++ [225, 18, 111, 90] ++ [4, 0, 0, 0]
    ++ List.replicate 16 0 ++ List.replicate 20 0

/-- C1 witness: on `encPakBuf` the base-size candidate parse fails with
`EncryptionNotSupported`. -/
theorem encrypted_trailer_fails_witness :
    read_pak_info encPakBuf pakSize =
      Except.error PakReaderError.encryptionNotSupported := by
  exact encrypted_trailer_fails encPakBuf
    (encPakBuf.drop (encPakBuf.length - pakSize)) pakSize 4 rfl
    (by decide) (by decide) (by decide) (by decide) (by decide) (by decide)
    (by decide)

/-- C1 counterexample: opening `encPakBuf` through the prober does not fail
with `EncryptionNotSupported` as the claim states: `get_pak_info` swallows
the per-candidate `EncryptionNotSupported` error and, with every candidate
failed, reports `UnknownVersion` instead (still returning no data). -/
theorem encrypted_archive_open_counterexample :
    get_pak_info encPakBuf = Except.error PakReaderError.unknownVersion
    ∧ read_pak_info encPakBuf pakSize =
        Except.error PakReaderError.encryptionNotSupported := by
  constructor
  · rfl
  · rfl

/-- The block-pair loop of `read_pak_entry`: read `n` (start, end) signed
64-bit pairs, in order. -/
def readBlocks : Cursor → Nat → List PakCompressionBlock →
    Option (List PakCompressionBlock × Cursor)
  | c, 0, acc => some (acc, c)
  | c, n + 1, acc =>
    match readI64LE c with
    | none => none
    | some (s, c1) =>
      match readI64LE c1 with
      | none => none
      | some (e, c2) => readBlocks c2 n (acc ++ [⟨s, e⟩])

/-- The legacy (version < 8) compression-flag word mapping, first matching
bit wins: bit0 → Zlib (1), bit1 → GZip (2), bit2 → Custom (3), else
stored (0). -/
def legacyCompressionIndex (f : Nat) : Nat :=
  if f = 0 then 0
  else if f % 2 = 1 then 1
  else if f / 2 % 2 = 1 then 2
  else if f / 4 % 2 = 1 then 3
  else 0

/-- The compression-index field of an entry record: one byte for
version ≥ 8 with sub-version 1, a 4-byte unsigned value for version ≥ 8
otherwise, and the legacy 4-byte flag word mapped through
`legacyCompressionIndex` below version 8. -/
def readCompressionIndexField (c : Cursor) (version sub_version : Int) :
    Option (Nat × Cursor) :=
  if 8 ≤ version then
    if sub_version = 1 then readU8 c else readU32LE c
  else
    match readU32LE c with
    | none => none
    | some (f, c1) => some (legacyCompressionIndex f, c1)

/-- The legacy timestamp field: an 8-byte value below version 2, otherwise
nothing is read and the field stays zero. -/
def readTimestampField (c : Cursor) (version : Int) : Option (Nat × Cursor) :=
  if version < 2 then readU64LE c else some (0, c)

/-- The version ≥ 3 tail of an entry record: when the compression index is
non-zero, a signed 32-bit block count and, when positive, that many
start/end pairs; then — for every version ≥ 3 record, whatever the
compression index — the 1-byte flags and the 4-byte nominal block size.
Below version 3 nothing is read and all three results stay empty/zero. -/
def readBlockSection (c : Cursor) (version : Int) (ci : Nat) :
    Option ((List PakCompressionBlock × Nat × Nat) × Cursor) :=
  if 3 ≤ version then
    match (if ci ≠ 0 then
        match readI32LE c with
        | none => none
        | some (n, c1) =>
          if 0 < n then readBlocks c1 n.toNat [] else some ([], c1)
      else some ([], c)) with
    | none => none
    | some (blocks, c1) =>
      match readU8 c1 with
      | none => none
      | some (flags, c2) =>
        match readU32LE c2 with
        | none => none
        | some (cbs, c3) => some ((blocks, flags, cbs), c3)
  else some (([], 0, 0), c)

/-- Model of `PakReader::read_pak_entry`: offset, size, uncompressed size,
compression index, optional legacy timestamp, 20-byte hash, optional block
section; `header_size` is the cursor advance over this record. -/
def read_pak_entry (c : Cursor) (version sub_version : Int) :
    Option (PakEntry × Cursor) :=
  let start := c.pos
  match readU64LE c with
  | none => none
  | some (offset, c1) =>
  match readU64LE c1 with
  | none => none
  | some (size, c2) =>
  match readU64LE c2 with
  | none => none
  | some (uncompressed_size, c3) =>
  match readCompressionIndexField c3 version sub_version with
  | none => none
  | some (compression_index, c4) =>
  match readTimestampField c4 version with
  | none => none
  | some (timestamp, c5) =>
  match read_buffer c5 20 with
  | none => none
  | some (hash, c6) =>
  match readBlockSection c6 version compression_index with
  | none => none
  | some ((compression_blocks, flags, compression_block_size), c7) =>
  some ({ start := start, offset := offset, size := size, flags := flags,
          timestamp := timestamp, hash := hash,
          uncompressed_size := uncompressed_size,
          compression_index := compression_index,
          compression_block_size := compression_block_size,
          compression_blocks := compression_blocks,
          header_size := c7.pos - start }, c7)

/-- Bytes consumed by the compression-index field. -/
def ciFieldBytes (version sub_version : Int) : Nat :=
  if 8 ≤ version then (if sub_version = 1 then 1 else 4) else 4

/-- Bytes consumed by the version ≥ 3 block section: the flags byte and the
4-byte nominal block size are consumed for every version ≥ 3 record, and
the 4-byte count plus 16 bytes per pair only when the compression index is
non-zero. -/
def blockSectionBytes (version : Int) (ci nblocks : Nat) : Nat :=
  if 3 ≤ version then (if ci ≠ 0 then 4 + 16 * nblocks else 0) + 5 else 0

/-- Total bytes consumed by one entry record. -/
def entryHeaderBytes (version sub_version : Int) (ci nblocks : Nat) : Nat :=
  24 + ciFieldBytes version sub_version
    + (if version < 2 then 8 else 0) + 20
    + blockSectionBytes version ci nblocks

theorem read_buffer_shape {c : Cursor} {n : Nat} {bs : List Nat}
    {c' : Cursor} (h : read_buffer c n = some (bs, c')) :
    c' = ⟨c.data, c.pos + n⟩ := by
  unfold read_buffer at h
  split at h
  · cases h; rfl
  · cases h

theorem readU8_shape {c : Cursor} {v : Nat} {c' : Cursor}
    (h : readU8 c = some (v, c')) : c' = ⟨c.data, c.pos + 1⟩ := by
  unfold readU8 at h
  cases hb : read_buffer c 1 with
  | none => rw [hb] at h; cases h
  | some r =>
    obtain ⟨bs, cc⟩ := r
    rw [hb] at h
    cases h
    exact read_buffer_shape hb

theorem readU32LE_shape {c : Cursor} {v : Nat} {c' : Cursor}
    (h : readU32LE c = some (v, c')) : c' = ⟨c.data, c.pos + 4⟩ := by
  unfold readU32LE at h
  cases hb : read_buffer c 4 with
  | none => rw [hb] at h; cases h
  | some r =>
    obtain ⟨bs, cc⟩ := r
    rw [hb] at h
    cases h
    exact read_buffer_shape hb

theorem readU64LE_shape {c : Cursor} {v : Nat} {c' : Cursor}
    (h : readU64LE c = some (v, c')) : c' = ⟨c.data, c.pos + 8⟩ := by
  unfold readU64LE at h
  cases hb : read_buffer c 8 with
  | none => rw [hb] at h; cases h
  | some r =>
    obtain ⟨bs, cc⟩ := r
    rw [hb] at h
    cases h
    exact read_buffer_shape hb

theorem readI32LE_shape {c : Cursor} {v : Int} {c' : Cursor}
    (h : readI32LE c = some (v, c')) : c' = ⟨c.data, c.pos + 4⟩ := by
  unfold readI32LE at h
  cases hb : read_buffer c 4 with
  | none => rw [hb] at h; cases h
  | some r =>
    obtain ⟨bs, cc⟩ := r
    rw [hb] at h
    cases h
    exact read_buffer_shape hb

theorem readI64LE_shape {c : Cursor} {v : Int} {c' : Cursor}
    (h : readI64LE c = some (v, c')) : c' = ⟨c.data, c.pos + 8⟩ := by
  unfold readI64LE at h
  cases hb : read_buffer c 8 with
  | none => rw [hb] at h; cases h
  | some r =>
    obtain ⟨bs, cc⟩ := r
    rw [hb] at h
    cases h
    exact read_buffer_shape hb

theorem readBlocks_shape :
    ∀ (n : Nat) (c : Cursor) (acc bs : List PakCompressionBlock)
      (c' : Cursor), readBlocks c n acc = some (bs, c') →
      c' = ⟨c.data, c.pos + 16 * n⟩ ∧ bs.length = acc.length + n := by
  intro n
  induction n with
  | zero =>
    intro c acc bs c' h
    rw [readBlocks] at h
    cases h
    exact ⟨by simp, by simp⟩
  | succ n ih =>
    intro c acc bs c' h
    rw [readBlocks] at h
    cases h1 : readI64LE c with
    | none => rw [h1] at h; cases h
    | some r1 =>
      obtain ⟨s, c1⟩ := r1
      rw [h1] at h
      dsimp only at h
      cases h2 : readI64LE c1 with
      | none => rw [h2] at h; cases h
      | some r2 =>
        obtain ⟨e, c2⟩ := r2
        rw [h2] at h
        dsimp only at h
        obtain ⟨hc', hlen⟩ := ih c2 (acc ++ [⟨s, e⟩]) bs c' h
        have hs1 := readI64LE_shape h1
        have hs2 := readI64LE_shape h2
        subst hs1
        subst hs2
        refine ⟨?_, ?_⟩
        · rw [hc']
          simp only [Cursor.mk.injEq, true_and]
          omega
        · rw [hlen]
          simp
          omega

theorem readCompressionIndexField_shape {c : Cursor}
    {version sub_version : Int} {ci : Nat} {c' : Cursor}
    (h : readCompressionIndexField c version sub_version = some (ci, c')) :
    c' = ⟨c.data, c.pos + ciFieldBytes version sub_version⟩ := by
  unfold readCompressionIndexField at h
  unfold ciFieldBytes
  by_cases h8 : 8 ≤ version
  · rw [if_pos h8] at h
    rw [if_pos h8]
    by_cases hsv : sub_version = 1
    · rw [if_pos hsv] at h
      rw [if_pos hsv]
      exact readU8_shape h
    · rw [if_neg hsv] at h
      rw [if_neg hsv]
      exact readU32LE_shape h
  · rw [if_neg h8] at h
    rw [if_neg h8]
    cases h1 : readU32LE c with
    | none => rw [h1] at h; cases h
    | some r =>
      obtain ⟨f, c1⟩ := r
      rw [h1] at h
      cases h
      exact readU32LE_shape h1

theorem readTimestampField_shape {c : Cursor} {version : Int} {ts : Nat}
    {c' : Cursor} (h : readTimestampField c version = some (ts, c')) :
    c' = ⟨c.data, c.pos + (if version < 2 then 8 else 0)⟩
      ∧ (¬ version < 2 → ts = 0) := by
  unfold readTimestampField at h
  by_cases h2 : version < 2
  · rw [if_pos h2] at h
    rw [if_pos h2]
    exact ⟨readU64LE_shape h, fun hc => absurd h2 hc⟩
  · rw [if_neg h2] at h
    rw [if_neg h2]
    cases h
    exact ⟨by simp, fun _ => rfl⟩

theorem readBlockSection_shape {c : Cursor} {version : Int} {ci : Nat}
    {blocks : List PakCompressionBlock} {flags cbs : Nat} {c' : Cursor}
    (h : readBlockSection c version ci = some ((blocks, flags, cbs), c')) :
    c' = ⟨c.data, c.pos + blockSectionBytes version ci blocks.length⟩
      ∧ (¬ 3 ≤ version → flags = 0 ∧ cbs = 0 ∧ blocks = []) := by
  unfold readBlockSection at h
  unfold blockSectionBytes
  by_cases h3 : 3 ≤ version
  · rw [if_pos h3] at h
    rw [if_pos h3]
    refine ?_
    have hmain : ∀ (bl : List PakCompressionBlock) (cm : Cursor),
        (if ci ≠ 0 then
            match readI32LE c with
            | none => none
            | some (n, c1) =>
              if 0 < n then readBlocks c1 n.toNat [] else some ([], c1)
          else some ([], c)) = some (bl, cm) →
        cm = ⟨c.data, c.pos + (if ci ≠ 0 then 4 + 16 * bl.length else 0)⟩ := by
      intro bl cm hbl
      by_cases hci : ci ≠ 0
      · rw [if_pos hci] at hbl
        rw [if_pos hci]
        cases h1 : readI32LE c with
        | none => rw [h1] at hbl; cases hbl
        | some r =>
          obtain ⟨n, c1⟩ := r
          rw [h1] at hbl
          dsimp only at hbl
          have hs1 := readI32LE_shape h1
          by_cases hn : 0 < n
          · rw [if_pos hn] at hbl
            obtain ⟨hcm, hlen⟩ := readBlocks_shape n.toNat c1 [] bl cm hbl
            subst hs1
            rw [hcm]
            simp only [Cursor.mk.injEq, true_and]
            simp at hlen
            omega
          · rw [if_neg hn] at hbl
            cases hbl
            subst hs1
            simp only [Cursor.mk.injEq, true_and, List.length_nil]
      · rw [if_neg hci] at hbl
        rw [if_neg hci]
        cases hbl
        simp
    cases hsec : (if ci ≠ 0 then
        match readI32LE c with
        | none => none
        | some (n, c1) =>
          if 0 < n then readBlocks c1 n.toNat [] else some ([], c1)
      else some ([], c)) with
    | none => rw [hsec] at h; cases h
    | some r =>
      obtain ⟨bl, cm⟩ := r
      rw [hsec] at h
      dsimp only at h
      cases hf : readU8 cm with
      | none => rw [hf] at h; cases h
      | some rf =>
        obtain ⟨fl, cf⟩ := rf
        rw [hf] at h
        dsimp only at h
        cases hcb : readU32LE cf with
        | none => rw [hcb] at h; cases h
        | some rc =>
          obtain ⟨cb, cc⟩ := rc
          rw [hcb] at h
          dsimp only at h
          cases h
          have hm := hmain blocks cm hsec
          have hfs := readU8_shape hf
          have hcs := readU32LE_shape hcb
          subst hm
          subst hfs
          subst hcs
          refine ⟨?_, fun hc => absurd h3 hc⟩
          simp only [Cursor.mk.injEq, true_and]
          omega
  · rw [if_neg h3] at h
    rw [if_neg h3]
    cases h
    exact ⟨by simp, fun _ => ⟨rfl, rfl, rfl⟩⟩

/-- C4 (amended): on every successful entry-record parse, the record
consumes exactly `entryHeaderBytes` bytes: the always-present 24-byte
offset/size/uncompressed-size prefix, the compression-index field, the
legacy timestamp only below version 2, the 20-byte hash, and — for every
version ≥ 3 record regardless of compression index — the trailing 1-byte
flags and 4-byte nominal block size, preceded by the signed 32-bit block
count and the start/end pairs only when the compression index is non-zero.
Below version 3 the flags and nominal block size are not consumed and stay
zero. -/
theorem entry_record_consumption (data : List Nat) (p : Nat)
    (version sub_version : Int) (e : PakEntry) (c' : Cursor)
    (h : read_pak_entry ⟨data, p⟩ version sub_version = some (e, c')) :
    e.header_size = entryHeaderBytes version sub_version
        e.compression_index e.compression_blocks.length
    ∧ c'.pos = p + e.header_size
    ∧ (version < 3 → e.flags = 0 ∧ e.compression_block_size = 0) := by
  rw [read_pak_entry] at h
  dsimp only at h
  cases h1 : readU64LE ⟨data, p⟩ with
  | none => rw [h1] at h; cases h
  | some r1 =>
  obtain ⟨offset, c1⟩ := r1
  rw [h1] at h
  dsimp only at h
  have s1 := readU64LE_shape h1
  subst s1
  cases h2 : readU64LE ⟨data, (⟨data, p⟩ : Cursor).pos + 8⟩ with
  | none => rw [h2] at h; cases h
  | some r2 =>
  obtain ⟨size, c2⟩ := r2
  rw [h2] at h
  dsimp only at h
  have s2 := readU64LE_shape h2
  subst s2
  cases h3 : readU64LE ⟨data, p + 8 + 8⟩ with
  | none => rw [h3] at h; cases h
  | some r3 =>
  obtain ⟨us, c3⟩ := r3
  rw [h3] at h
  dsimp only at h
  have s3 := readU64LE_shape h3
  subst s3
  cases h4 : readCompressionIndexField ⟨data, p + 8 + 8 + 8⟩ version
      sub_version with
  | none => rw [h4] at h; cases h
  | some r4 =>
  obtain ⟨ci, c4⟩ := r4
  rw [h4] at h
  dsimp only at h
  have s4 := readCompressionIndexField_shape h4
  subst s4
  cases h5 : readTimestampField
      ⟨data, p + 8 + 8 + 8 + ciFieldBytes version sub_version⟩ version with
  | none => rw [h5] at h; cases h
  | some r5 =>
  obtain ⟨ts, c5⟩ := r5
  rw [h5] at h
  dsimp only at h
  obtain ⟨s5, hts⟩ := readTimestampField_shape h5
  subst s5
  cases h6 : read_buffer ⟨data, p + 8 + 8 + 8 + ciFieldBytes version
      sub_version + (if version < 2 then 8 else 0)⟩ 20 with
  | none => rw [h6] at h; cases h
  | some r6 =>
  obtain ⟨hash, c6⟩ := r6
  rw [h6] at h
  dsimp only at h
  have s6 := read_buffer_shape h6
  subst s6
  cases h7 : readBlockSection ⟨data, p + 8 + 8 + 8 + ciFieldBytes version
      sub_version + (if version < 2 then 8 else 0) + 20⟩ version ci with
  | none => rw [h7] at h; cases h
  | some r7 =>
  obtain ⟨r7a, c7⟩ := r7
  obtain ⟨blocks, flags, cbs⟩ := r7a
  rw [h7] at h
  dsimp only at h
  obtain ⟨s7, hlt3⟩ := readBlockSection_shape h7
  subst s7
  cases h
  refine ⟨?_, ?_, ?_⟩
  · show _ - p = entryHeaderBytes version sub_version ci blocks.length
    unfold entryHeaderBytes
    dsimp only
    omega
  · dsimp only
    omega
  · intro hv3
    have := hlt3 (by omega)
    exact ⟨this.1, this.2.1⟩

/-- A concrete version-3 record with compression index 0: 24 zero bytes,
zero legacy flag word, 20-byte zero hash, then the flags byte 171 and the
nominal block size `0xDEADBEEF`. -/
def c4RecordBytes : List Nat :=
  List.replicate 24 0 ++ [0, 0, 0, 0] ++ List.replicate 20 0
    ++ [171, 239, 190, 173, 222]

/-- C4 witness: parsing the concrete version-3, index-0 record
`c4RecordBytes` consumes exactly `entryHeaderBytes 3 0 0 0 = 53` bytes. -/
theorem entry_record_consumption_witness :
    ({ start := 0, offset := 0, size := 0, flags := 171, timestamp := 0,
       hash := List.replicate 20 0, uncompressed_size := 0,
       compression_index := 0, compression_block_size := 3735928559,
       compression_blocks := [], header_size := 53 } : PakEntry).header_size
      = entryHeaderBytes 3 0 0 0 :=
  (entry_record_consumption c4RecordBytes 0 3 0
    { start := 0, offset := 0, size := 0, flags := 171, timestamp := 0,
      hash := List.replicate 20 0, uncompressed_size := 0,
      compression_index := 0, compression_block_size := 3735928559,
      compression_blocks := [], header_size := 53 }
    ⟨c4RecordBytes, 53⟩ (by rfl)).1

/-- C4 counterexample: the claim says that for a record where the
compression index is 0 the flags byte and the 4-byte nominal block size are
not consumed; but on the concrete version-3, index-0 record
`c4RecordBytes` the parser consumes 53 bytes — including those 5 — and
records flags 171 and nominal block size `0xDEADBEEF` read from them
(48 bytes would be consumed were the claim true). -/
theorem entry_record_flags_always_read_counterexample :
    (read_pak_entry ⟨c4RecordBytes, 0⟩ 3 0).map
        (fun r => (r.1.header_size, r.1.flags, r.1.compression_block_size)) =
      some (53, 171, 3735928559)
    ∧ (53 : Nat) ≠ 24 + 4 + 20 := by
  constructor
  · rfl
  · decide

theorem decompressTypeOf_eq_none {n : Nat} (h1 : n ≠ 1) (h2 : n ≠ 2) :
    decompressTypeOf n = none := by
  match n, h1, h2 with
  | 0, _, _ => rfl
  | 1, h, _ => exact absurd rfl h
  | 2, _, h => exact absurd rfl h
  | k + 3, _, _ => rfl

theorem decompressTypeOf_ne_zero {n : Nat} {t : DecompressType}
    (h : decompressTypeOf n = some t) : n ≠ 0 := by
  intro h0
  subst h0
  cases h

theorem drop_replicate_zero (n m : Nat) :
    (List.replicate m (0 : Nat)).drop n = List.replicate (m - n) 0 := by
  induction n generalizing m with
  | zero => simp
  | succ n ih =>
    cases m with
    | zero => simp
    | succ m =>
      rw [List.replicate_succ, List.drop_succ_cons, ih m]
      congr 1
      omega

/-- The chunk size read from the archive for an entry's first compression
block: `min(uncompressed_size - block_size * 0, block_size)` with u64
wrapping, as in the source's block loop at index 0. -/
def firstChunkLen (e : PakEntry) : Nat :=
  min (sub64 e.uncompressed_size (e.compression_block_size * 0))
    e.compression_block_size

/-- The archive bytes read for an entry's first compression block. -/
def firstChunk (data : List Nat) (e : PakEntry) : List Nat :=
  (data.drop (e.offset + e.header_size)).take (firstChunkLen e)

/-- A zlib/gzip entry (any compression index the dispatch maps to a codec)
with a single block whose chunk read and decode succeed returns its
decompressed data, zero-padded to `uncompressed_size`. -/
theorem codec_block_fetch_ok (codec : Codec) (c : Cursor) (e' : PakEntry)
    (b' : PakCompressionBlock) (t : DecompressType) (out : List Nat)
    (hdt : decompressTypeOf e'.compression_index = some t)
    (hbl : e'.compression_blocks = [b'])
    (hfit2 : e'.offset + e'.header_size + firstChunkLen e' ≤ c.data.length)
    (hcs : blockSizeUsize b' ≤ firstChunkLen e')
    (hcodec : codec t ((firstChunk c.data e').take (blockSizeUsize b')) =
      some out)
    (hlen : out.length ≤ e'.uncompressed_size) :
    get_pak_entry_data codec c e' = FetchOutcome.ok
      (out ++ List.replicate (e'.uncompressed_size - out.length) 0) := by
  have hne : e'.compression_index ≠ 0 := decompressTypeOf_ne_zero hdt
  rw [get_pak_entry_data, if_neg hne, hbl, fetchBlocks]
  have hrb := read_buffer_of_le
    (c := ⟨c.data, e'.offset + e'.header_size⟩)
    (n := min (sub64 e'.uncompressed_size (e'.compression_block_size * 0))
      e'.compression_block_size)
    (by simpa [firstChunkLen] using hfit2)
  rw [hrb]
  dsimp only
  rw [hdt]
  dsimp only
  rw [read_decompress]
  have hchunklen : ((c.data.drop (e'.offset + e'.header_size)).take
      (min (sub64 e'.uncompressed_size (e'.compression_block_size * 0))
        e'.compression_block_size)).length
      = min (sub64 e'.uncompressed_size (e'.compression_block_size * 0))
          e'.compression_block_size := by
    unfold firstChunkLen at hfit2
    simp only [List.length_take, List.length_drop]
    omega
  have hrb2 := read_buffer_of_le
    (c := ⟨(c.data.drop (e'.offset + e'.header_size)).take
      (min (sub64 e'.uncompressed_size (e'.compression_block_size * 0))
        e'.compression_block_size), 0⟩)
    (n := blockSizeUsize b')
    (by
      have hcs' := hcs
      unfold firstChunkLen at hcs'
      dsimp only
      rw [hchunklen]
      simpa using hcs')
  rw [hrb2]
  dsimp only
  rw [List.drop_zero]
  have hcodec' : codec t (((c.data.drop (e'.offset + e'.header_size)).take
      (min (sub64 e'.uncompressed_size (e'.compression_block_size * 0))
        e'.compression_block_size)).take (blockSizeUsize b')) = some out := by
    unfold firstChunk firstChunkLen at hcodec
    exact hcodec
  rw [hcodec']
  dsimp only
  have hsplice : 0 ≤ out.length
      ∧ out.length ≤ (List.replicate e'.uncompressed_size (0 : Nat)).length :=
    ⟨Nat.zero_le _, by simpa using hlen⟩
  rw [if_pos hsplice]
  rw [fetchBlocks]
  simp [drop_replicate_zero]

/-- C2 (amended): an entry whose compression index selects no implemented
codec (not 0, 1 or 2 — e.g. 3, Custom) does not fail its fetch with an
error value: as soon as the first compression block is processed the code
panics (the panic arm of the index dispatch; no unsupported-codec variant
even exists in `PakReaderError`).  The failure is still confined to that
call: sibling entries with index 0, 1 or 2 in the same archive remain
fetchable — a stored sibling (index 0) returns its raw bytes, and a
zlib/gzip sibling (index 1 or 2, i.e. any index the dispatch maps to a
codec) whose block chunk reads and decodes successfully returns its
decompressed data. -/
theorem unsupported_codec_panics (codec : Codec) (c : Cursor) (e : PakEntry)
    (b : PakCompressionBlock) (rest : List PakCompressionBlock)
    (h0 : e.compression_index ≠ 0) (h1 : e.compression_index ≠ 1)
    (h2 : e.compression_index ≠ 2)
    (hb : e.compression_blocks = b :: rest)
    (hfit : e.offset + e.header_size
      + min (sub64 e.uncompressed_size (e.compression_block_size * 0))
          e.compression_block_size ≤ c.data.length) :
    get_pak_entry_data codec c e = FetchOutcome.panicked
    ∧ (∀ e' : PakEntry, e'.compression_index = 0 →
        e'.offset + e'.header_size + e'.size ≤ c.data.length →
        ∃ d, get_pak_entry_data codec c e' = FetchOutcome.ok d)
    ∧ (∀ (e' : PakEntry) (b' : PakCompressionBlock) (t : DecompressType)
        (out : List Nat),
        decompressTypeOf e'.compression_index = some t →
        e'.compression_blocks = [b'] →
        e'.offset + e'.header_size + firstChunkLen e' ≤ c.data.length →
        blockSizeUsize b' ≤ firstChunkLen e' →
        codec t ((firstChunk c.data e').take (blockSizeUsize b')) = some out →
        out.length ≤ e'.uncompressed_size →
        get_pak_entry_data codec c e' = FetchOutcome.ok
          (out ++ List.replicate (e'.uncompressed_size - out.length) 0)) := by
  refine ⟨?_, ?_, ?_⟩
  · rw [get_pak_entry_data]
    rw [if_neg h0, hb, fetchBlocks]
    have hrb := read_buffer_of_le
      (c := ⟨c.data, e.offset + e.header_size⟩)
      (n := min (sub64 e.uncompressed_size (e.compression_block_size * 0))
        e.compression_block_size)
      (by simpa using hfit)
    rw [hrb]
    dsimp only
    rw [decompressTypeOf_eq_none h1 h2]
  · intro e' hci hfit'
    refine ⟨(c.data.drop (e'.offset + e'.header_size)).take e'.size, ?_⟩
    have hrb := read_buffer_of_le
      (c := ⟨c.data, e'.offset + e'.header_size⟩)
      (n := e'.size) (by simpa using hfit')
    rw [get_pak_entry_data]
    rw [if_pos hci, hrb]
  · intro e' b' t out hdt hbl hfit2 hcs hcodec hlen
    exact codec_block_fetch_ok codec c e' b' t out hdt hbl hfit2 hcs hcodec
      hlen

/-- A concrete entry with the unimplemented Custom codec index and one
compression block. -/
def customEntry : PakEntry :=
  { start := 0, offset := 0, size := 2, flags := 0, timestamp := 0,
    hash := [], uncompressed_size := 2, compression_index := 3,
    compression_block_size := 2,
    compression_blocks := [⟨0, 1⟩], header_size := 0 }

/-- The identity codec oracle: decompression returns its input bytes. -/
def idCodec : Codec := fun _ b => some b

/-- A stored-style zlib sibling entry: index 1, one block of one
compressed byte, uncompressed size 2. -/
def zlibSibling : PakEntry :=
  { start := 0, offset := 0, size := 2, flags := 0, timestamp := 0,
    hash := [], uncompressed_size := 2, compression_index := 1,
    compression_block_size := 2, compression_blocks := [⟨0, 1⟩],
    header_size := 0 }

/-- C2 witness: over the same two-byte archive, fetching `customEntry`
(index 3) panics while the zlib sibling `zlibSibling` (index 1) fetches
successfully under the identity codec oracle. -/
theorem unsupported_codec_panics_witness :
    get_pak_entry_data idCodec ⟨[5, 6], 0⟩ customEntry =
      FetchOutcome.panicked
    ∧ get_pak_entry_data idCodec ⟨[5, 6], 0⟩ zlibSibling =
      FetchOutcome.ok [5, 0] := by
  have h := unsupported_codec_panics idCodec ⟨[5, 6], 0⟩ customEntry ⟨0, 1⟩ []
    (by decide) (by decide) (by decide) (by decide) (by decide)
  refine ⟨h.1, ?_⟩
  have h2 := h.2.2 zlibSibling ⟨0, 1⟩ DecompressType.Zlib [5]
    (by decide) (by decide) (by decide) (by decide) (by decide) (by decide)
  exact h2.trans (by decide)

/-- C2 counterexample: the claim says the fetch of an index-3 entry
"returns an unsupported-codec error result"; on this concrete input it
panics instead — the outcome is not an error value (the error enum has no
unsupported-codec variant at all). -/
theorem unsupported_codec_error_counterexample :
    get_pak_entry_data idCodec ⟨[7, 8, 9], 0⟩
      { start := 0, offset := 0, size := 3, flags := 0, timestamp := 0,
        hash := [], uncompressed_size := 3, compression_index := 3,
        compression_block_size := 3,
        compression_blocks := [⟨0, 2⟩], header_size := 0 } =
      FetchOutcome.panicked
    ∧ FetchOutcome.panicked ≠ FetchOutcome.ioError := by
  exact ⟨rfl, by decide⟩

/-- A concrete zlib-marked entry with two compression blocks: uncompressed
size 4, nominal block size 2, blocks (0,1) and (1,2). -/
def twoBlockEntry : PakEntry :=
  { start := 0, offset := 0, size := 2, flags := 0, timestamp := 0,
    hash := [], uncompressed_size := 4, compression_index := 1,
    compression_block_size := 2,
    compression_blocks := [⟨0, 1⟩, ⟨1, 2⟩], header_size := 0 }

/-- C3: the compressed-entry length invariant fails for more than one
block.  `decompressed.splice(offset..bytes_read, ..)` uses `bytes_read` —
the current block's decompressed length — as the end of the replaced range
instead of `offset + bytes_read`, so from the second block on, each splice
removes `bytes_read - offset` elements but inserts `bytes_read`, growing
the buffer by `offset`.  On `twoBlockEntry` (each block decompressing to
one byte under the identity codec oracle) the fetch succeeds with a 5-byte
buffer although `uncompressed_size` is 4. -/
theorem compressed_length_invariant_code_bug :
    get_pak_entry_data idCodec ⟨[10, 11, 12, 13], 0⟩ twoBlockEntry =
      FetchOutcome.ok [10, 12, 0, 0, 0]
    ∧ ([10, 12, 0, 0, 0] : List Nat).length ≠
        twoBlockEntry.uncompressed_size := by
  constructor
  · rfl
  · decide
